import Mathlib

/-!
Verification development for the Commando command framework
(argument collection engine, dispatcher gates, registry lookup, tokenizer).

The definitions below are a shallow embedding of the TypeScript sources:
* `src/src/types/float.ts` (contains `FloatArgumentType`, `Argument` and
  `ArgumentCollector`),
* `src/src/dispatcher.ts` (`CommandDispatcher.shouldHandleMessage`),
* `src/src/registry.ts` (`CommandoRegistry.findCommands`),
* the `CommandoMessage` extension (`run`, static `parseArgs`),
* the `Throttle` surface of `src/types/client.d.ts`.

JavaScript-specific behaviour (truthiness, `undefined` vs `null`,
string indexing) is modelled explicitly with small inductive types.
Asynchronous waiting is modelled by feeding `obtain` the finite list of
reply events it consumes; a run that is still waiting for input (or that
would wait forever) yields the `pending` outcome.
-/

namespace Commando

/-- Result of a validator as seen by JavaScript: either a boolean or a
rejection-reason string (`validate` in `ArgumentType` / `ArgumentInfo`). -/
inductive JsValid where
  | b (b : Bool)
  | s (s : String)
deriving DecidableEq, Repr

/-- Loop condition of `Argument.obtain`: `!valid || typeof valid === 'string'`.
Note the empty string is falsy but is also of type string, so any string
keeps the prompting loop running; only `true` exits it. -/
def JsValid.isInvalid : JsValid → Bool
  | .b x => !x
  | .s _ => true

/-- The `default` property of a constructed `Argument`: `null`, a literal
value (whose JavaScript truthiness is recorded, since `obtainInfinite`
branches on `this.default ?`), or a default-resolver function together
with the value it resolves to (a function object is always truthy). -/
inductive DefaultVal (V : Type) where
  | none
  | lit (v : V) (truthy : Bool)
  | fn (v : V)
deriving DecidableEq, Repr

/-- The value `obtain` would return from the empty-and-not-required branch:
`typeof this.default === 'function' ? await this.default(message, this) : this.default`. -/
def DefaultVal.resolve {V : Type} : DefaultVal V → Option V
  | .none => Option.none
  | .lit v _ => Option.some v
  | .fn v => Option.some v

/-- JavaScript truthiness of the `this.default` field itself. -/
def DefaultVal.jsTruthy {V : Type} : DefaultVal V → Bool
  | .none => false
  | .lit _ t => t
  | .fn _ => true

/-- The `value` parameter of `Argument.obtain`: `string[] | string`
(absence, i.e. `undefined`, is modelled by wrapping in `Option`). -/
inductive RawInput where
  | single (s : String)
  | array (xs : List String)
deriving DecidableEq, Repr

/-- One outcome of `channel.awaitMessages`: either no message arrived within
the wait time, or the user sent a message with the given content. -/
inductive Reply where
  | timeout
  | msg (content : String)
deriving DecidableEq, Repr

/-- A `promptLimit` argument (a JavaScript number, `Infinity` by default). -/
inductive LimitVal where
  | inf
  | num (n : Nat)
deriving DecidableEq, Repr

/-- `prompts.length >= promptLimit` (single-value loop). -/
def LimitVal.reachedBy : LimitVal → Nat → Bool
  | .inf, _ => false
  | .num n, p => n ≤ p

/-- `attempts > promptLimit` (infinite-value loop). -/
def LimitVal.exceededBy : LimitVal → Nat → Bool
  | .inf, _ => false
  | .num n, a => n < a

/-- The cancellation causes of an `ArgumentResult`. -/
inductive Cancel where
  | user
  | time
  | promptLimit
deriving DecidableEq, Repr

/-- A final argument value: a single parsed value, or — for the infinite
variant — the array of parsed values (`await this.parse(...)` is pushed
unchecked, so entries may be `null`, modelled by `Option`). -/
inductive ArgValue (V : Type) where
  | one (v : V)
  | many (vs : List (Option V))
deriving DecidableEq, Repr

/-- `ArgumentResult`: prompts are modelled by how many prompt messages were
sent, answers by the contents of the user replies consumed. -/
structure ArgResult (V : Type) where
  value : Option (ArgValue V)
  cancelled : Option Cancel
  prompts : Nat
  answers : List String
deriving DecidableEq, Repr

/-- Outcome of running `Argument.obtain` against a finite reply list:
a returned `ArgumentResult`, a thrown error (the
`Argument must have both validate and parse...` paths), or still
awaiting further input. -/
inductive ORes (V : Type) where
  | result (r : ArgResult V)
  | thrown
  | pending
deriving DecidableEq, Repr

/-- The plugin surface of a registered `ArgumentType` bound to an argument:
`validate`, `parse` (which may return `null`) and `isEmpty`. -/
structure ArgTypeSpec (V : Type) where
  validate : Option String → JsValid
  parse : String → Option V
  isEmpty : Option RawInput → Bool

/-- The fields of a constructed `Argument` that its `obtain` machinery
reads. `validator`/`parser`/`emptyChecker` are the custom `info.validate`
/`info.parse`/`info.isEmpty` overrides; `type` is the bound argument type.
Functions are modelled as pure (synchronous) maps from the raw value. -/
structure ArgSpec (V : Type) where
  required : Bool
  infinite : Bool
  dflt : DefaultVal V
  error : Option String
  type : Option (ArgTypeSpec V)
  validator : Option (Option String → JsValid)
  parser : Option (String → Option V)
  emptyChecker : Option (Option RawInput → Bool)

/-- `Argument.isEmpty`: custom checker, else the type plugin, else
`Array.isArray(value) ? value.length === 0 : !value`. -/
def ArgSpec.isEmptyOn {V : Type} (a : ArgSpec V) (value : Option RawInput) : Bool :=
  match a.emptyChecker with
  | some f => f value
  | none =>
    match a.type with
    | some t => t.isEmpty value
    | none =>
      match value with
      | some (.array xs) => xs.isEmpty
      | some (.single s) => s.isEmpty
      | none => true

/-- The synchronous tail of `Argument.validate`:
`if (!valid || typeof valid === 'string') return this.error || valid`.
`this.error` is `null` or a non-empty string, so `this.error || valid`
is `error` when set, else the raw result. -/
def validateWrap (error : Option String) (raw : JsValid) : JsValid :=
  if raw.isInvalid then
    match error with
    | some e => .s e
    | none => raw
  else raw

/-- `Argument.validate`. It throws (`none`) whenever the argument has no
bound type — the guard `!this.type || (!this.type && this.validator)`
reduces to `!this.type` — and otherwise applies the custom validator or
the type plugin, then the error override. -/
def ArgSpec.validateOn {V : Type} (a : ArgSpec V) (value : Option String) : Option JsValid :=
  match a.type with
  | none => none
  | some t => some (validateWrap a.error ((a.validator.getD t.validate) value))

/-- `Argument.parse`: the custom parser if present, else throw (`none`)
without a type, else the type plugin. The inner `Option` is the possibly
`null` parsed value. -/
def ArgSpec.parseOn {V : Type} (a : ArgSpec V) (value : String) : Option (Option V) :=
  match a.parser with
  | some p => some (p value)
  | none =>
    match a.type with
    | none => none
    | some t => some (t.parse value)

/-- JavaScript truthiness of a `string | null` value (`null` and the empty
string are falsy). -/
def jsTruthyStr : Option String → Bool
  | none => false
  | some s => !s.isEmpty

/-- JavaScript `String#toLowerCase` (ASCII case mapping, which is all these
comparisons need), implemented structurally so it evaluates by reduction. -/
def jsToLowerCase (s : String) : String :=
  String.mk (s.data.map Char.toLower)

/-- The single-value prompt/reply loop of `Argument.obtain`
(`while (!valid || typeof valid === 'string') ...` and the final parse).
State: the current raw `value`, prompts sent, answers consumed, the
`empty` flag and the current validation result. Consumes one entry of
`replies` per `awaitMessages`. -/
def singleLoop {V : Type} (a : ArgSpec V) (value : Option String) (replies : List Reply)
    (limit : LimitVal) (prompts : Nat) (answers : List String) (empty : Bool)
    (valid : JsValid) : ORes V :=
  if valid.isInvalid then
    if limit.reachedBy prompts then
      .result ⟨none, some .promptLimit, prompts, answers⟩
    else
      match replies with
      | [] => .pending
      | .timeout :: _ => .result ⟨none, some .time, prompts + 1, answers⟩
      | .msg c :: rest =>
        if jsToLowerCase c = "cancel" then
          .result ⟨none, some .user, prompts + 1, answers ++ [c]⟩
        else
          match a.validateOn (some c) with
          | none => .thrown
          | some valid1 =>
            singleLoop a (some c) rest limit (prompts + 1) (answers ++ [c])
              (a.isEmptyOn (some (.single c))) valid1
  else
    match a.parseOn (value.getD "") with
    | none => .thrown
    | some pv => .result ⟨pv.map .one, none, prompts, answers⟩

/-- The inner `while (!valid || typeof valid === 'string')` loop of
`Argument.obtainInfinite` either finishes the whole obtain (`done`) or
produces a raw value that validated (`valid`), to be parsed and pushed
by the outer loop. -/
inductive InnerOut (V : Type) where
  | done (o : ORes V)
  | valid (finalValue : Option String) (repliesRest : List Reply) (prompts : Nat)
      (answers : List String)

/-- The prompt-sending rule of the infinite loop: a re-prompt is sent when
the rejected raw value is truthy (`if (value)`), and the initial prompt
is sent only while no value has been collected yet
(`else if (results.length === 0)`). -/
def infPromptBump {V : Type} (value : Option String) (results : List (Option V))
    (prompts : Nat) : Nat :=
  if jsTruthyStr value then prompts + 1
  else if results.isEmpty then prompts + 1
  else prompts

/-- The early-termination result of the `finish` reply:
`value: results.length > 0 ? results : null` and
`cancelled: this.default ? null : results.length > 0 ? null : 'user'`. -/
def finishResult {V : Type} (a : ArgSpec V) (results : List (Option V)) (prompts : Nat)
    (answers : List String) : ORes V :=
  .result ⟨(if results.isEmpty then none else some (.many results)),
    (if a.dflt.jsTruthy then none
     else if results.isEmpty then some .user else none),
    prompts, answers⟩

/-- Inner prompting loop of `Argument.obtainInfinite` for one value slot.
`value` is the current raw value (`values?.[currentVal] ?? null` on entry,
then each reply content), `results` the values parsed so far, `attempts`
the per-slot attempt counter checked against `promptLimit`. -/
def infInner {V : Type} (a : ArgSpec V) (results : List (Option V)) (replies : List Reply)
    (limit : LimitVal) (prompts : Nat) (answers : List String) (value : Option String)
    (valid : JsValid) (attempts : Nat) : InnerOut V :=
  if valid.isInvalid then
    if limit.exceededBy (attempts + 1) then
      .done (.result ⟨none, some .promptLimit, prompts, answers⟩)
    else
      match replies with
      | [] => .done .pending
      | .timeout :: _ =>
        .done (.result ⟨none, some .time, infPromptBump value results prompts, answers⟩)
      | .msg c :: rest =>
        if jsToLowerCase c = "finish" then
          .done (finishResult a results (infPromptBump value results prompts) (answers ++ [c]))
        else if jsToLowerCase c = "cancel" then
          .done (.result ⟨none, some .user, infPromptBump value results prompts,
            answers ++ [c]⟩)
        else
          match a.validateOn (some c) with
          | none => .done .thrown
          | some valid1 =>
            infInner a results rest limit (infPromptBump value results prompts)
              (answers ++ [c]) (some c) valid1 (attempts + 1)
  else
    .valid value replies prompts answers

/-- `let valid = value ? await this.validate(value, message) : false` — the
slot's pre-provided value is validated only when truthy. -/
def slotInitialValid {V : Type} (a : ArgSpec V) (value : Option String) : Option JsValid :=
  if jsTruthyStr value then a.validateOn value else some (.b false)

/-- Outer loop of `Argument.obtainInfinite`: one iteration per value slot.
Each iteration either consumes at least one reply or (when the slot's
pre-provided value validates directly) one element of `values`, so the
fuel `replies.length + |values| + 1` suffices for every terminating run. -/
def infLoop {V : Type} (a : ArgSpec V) (values : Option (List String)) (fuel : Nat)
    (currentVal : Nat) (results : List (Option V)) (replies : List Reply)
    (limit : LimitVal) (prompts : Nat) (answers : List String) : ORes V :=
  match fuel with
  | 0 => .pending
  | fuel + 1 =>
    match slotInitialValid a (values.bind (fun vs => vs[currentVal]?)) with
    | none => .thrown
    | some valid0 =>
      match infInner a results replies limit prompts answers
          (values.bind (fun vs => vs[currentVal]?)) valid0 0 with
      | .done o => o
      | .valid finalValue repliesRest prompts1 answers1 =>
        match a.parseOn (finalValue.getD "") with
        | none => .thrown
        | some pv =>
          match values with
          | some vs =>
            if currentVal + 1 = vs.length then
              .result ⟨some (.many (results ++ [pv])), none, prompts1, answers1⟩
            else
              infLoop a values fuel (currentVal + 1) (results ++ [pv]) repliesRest limit
                prompts1 answers1
          | none =>
            infLoop a values fuel currentVal (results ++ [pv]) repliesRest limit prompts1
              answers1

/-- `Argument.obtainInfinite`. -/
def ArgSpec.obtainInfinite {V : Type} (a : ArgSpec V) (values : Option (List String))
    (replies : List Reply) (limit : LimitVal) : ORes V :=
  infLoop a values (replies.length + (values.getD []).length + 1) 0 [] replies limit 0 []

/-- Conversion of `obtain`'s `value` parameter into the `values` array seen
by `obtainInfinite` (`value as string[]`): an array passes through, and a
string is indexed character-wise by `values?.[currentVal]`; the empty
string is falsy wherever `values` is tested, exactly like `undefined`. -/
def toValuesList : Option RawInput → Option (List String)
  | none => none
  | some (.array xs) => some xs
  | some (.single s) => if s.isEmpty then none else some (s.data.map String.singleton)

/-- `Argument.obtain`: the empty-and-not-required default branch, the
dispatch to `obtainInfinite` for infinite arguments or array values, and
the single-value prompting loop. -/
def ArgSpec.obtain {V : Type} (a : ArgSpec V) (value : Option RawInput)
    (replies : List Reply) (limit : LimitVal) : ORes V :=
  if a.isEmptyOn value && !a.required then
    .result ⟨a.dflt.resolve.map .one, none, 0, []⟩
  else if a.infinite || (match value with | some (.array _) => true | _ => false) then
    a.obtainInfinite (toValuesList value) replies limit
  else
    match (if !a.isEmptyOn value then
        a.validateOn (match value with | some (.single s) => some s | _ => none)
      else some (.b false)) with
    | none => .thrown
    | some valid0 =>
      singleLoop a (match value with | some (.single s) => some s | _ => none) replies
        limit 0 [] (a.isEmptyOn value) valid0

/-! ### ArgumentCollector: constructor ordering check and `obtain` -/

/-- The `default` property of an `ArgumentInfo` object as JavaScript sees it
in the collector constructor: absent (`undefined`), explicitly `null`, or
some value. The constructor compares it against `null` with `!==`. -/
inductive JsField where
  | undef
  | nul
  | val
deriving DecidableEq, Repr

/-- The two `ArgumentInfo` properties read by the ordering loop of the
`ArgumentCollector` constructor. -/
structure CtorArgInfo where
  dfltField : JsField
  infinite : Bool
deriving DecidableEq, Repr

/-- The ordering loop of the `ArgumentCollector` constructor:
`if (hasInfinite) throw ...; if (args[i].default !== null) hasOptional = true;
else if (hasOptional) throw ...;` followed by constructing the argument and
recording its `infinite` flag. -/
def collectorOrderingCheck : List CtorArgInfo → Bool → Bool → Except String Unit
  | [], _, _ => .ok ()
  | a :: rest, hasInfinite, hasOptional =>
    if hasInfinite then
      .error "No other argument may come after an infinite argument."
    else if a.dfltField ≠ JsField.nul then
      collectorOrderingCheck rest a.infinite true
    else if hasOptional then
      .error "Required arguments may not come after optional arguments."
    else
      collectorOrderingCheck rest a.infinite hasOptional

/-- `ArgumentCollector` constructor entry point for the ordering check. -/
def collectorCtor (args : List CtorArgInfo) : Except String Unit :=
  collectorOrderingCheck args false false

/-- `Set.add` of the JavaScript string set `_awaiting` (no duplicates). -/
def jsSetAdd (s : List String) (x : String) : List String :=
  if s.contains x then s else s ++ [x]

/-- `Set.delete` of the JavaScript string set `_awaiting`: a JS set holds no
duplicates, so deleting the element removes every listed occurrence. -/
def jsSetDelete (s : List String) (x : String) : List String :=
  s.filter (fun y => y ≠ x)

/-- `Set.has` of the JavaScript string set `_awaiting`. -/
def jsSetHas (s : List String) (x : String) : Bool :=
  s.contains x

/-- Outcome of one `arg.obtain(...)` call as observed by the collector loop:
a returned result or a thrown error. (The collector's `obtain` is modelled
against this per-argument outcome list; the slicing of pre-provided values
and reply consumption happen inside each argument's own `obtain`.) -/
inductive ArgOutcome (V : Type) where
  | ok (r : ArgResult V)
  | thrown
deriving DecidableEq, Repr

/-- `ArgumentCollectorResult`: values mapped by argument key, the
short-circuiting cancellation cause, and the flattened prompts/answers of
all results collected so far. -/
structure CollResult (V : Type) where
  values : Option (List (String × Option (ArgValue V)))
  cancelled : Option Cancel
  prompts : Nat
  answers : List String
deriving DecidableEq, Repr

/-- A run of `ArgumentCollector.obtain`: its result (`Except.error` models a
rethrown exception), the `_awaiting` set after completion, and the
`_awaiting` set observed at the start of each processed argument. -/
structure CollRun (V : Type) where
  result : Except Unit (CollResult V)
  awaitingAfter : List String
  statesAtArgs : List (List String)
deriving Repr

/-- The `for` loop of `ArgumentCollector.obtain` with its cancellation
short-circuit, rethrow path and `_awaiting` deletion on every exit. -/
def collectorObtainGo {V : Type} (aw : List String) (id : String) :
    List (String × ArgOutcome V) → List (String × Option (ArgValue V)) → Nat →
    List String → List (List String) → CollRun V
  | [], valuesAcc, promptsAcc, answersAcc, trace =>
    ⟨.ok ⟨some valuesAcc, none, promptsAcc, answersAcc⟩, jsSetDelete aw id, trace⟩
  | (key, outcome) :: rest, valuesAcc, promptsAcc, answersAcc, trace =>
    match outcome with
    | .thrown => ⟨.error (), jsSetDelete aw id, trace ++ [aw]⟩
    | .ok r =>
      match r.cancelled with
      | some cause =>
        ⟨.ok ⟨none, some cause, promptsAcc + r.prompts, answersAcc ++ r.answers⟩,
          jsSetDelete aw id, trace ++ [aw]⟩
      | none =>
        collectorObtainGo aw id rest (valuesAcc ++ [(key, r.value)])
          (promptsAcc + r.prompts) (answersAcc ++ r.answers) (trace ++ [aw])

/-- `ArgumentCollector.obtain`: `id = author.id + channelId` is added to the
dispatcher's `_awaiting` set before the argument loop starts. -/
def collectorObtain {V : Type} (awaiting : List String) (id : String)
    (args : List (String × ArgOutcome V)) : CollRun V :=
  collectorObtainGo (jsSetAdd awaiting id) id args [] 0 [] []

/-! ### CommandDispatcher.shouldHandleMessage -/

/-- The fields of an inbound message read by `shouldHandleMessage`. -/
structure MsgLite where
  partialMsg : Bool
  authorBot : Bool
  authorId : String
  channelId : String
  content : String
deriving DecidableEq, Repr

/-- `CommandDispatcher.shouldHandleMessage`: ignore partial and bot/self
messages, messages whose author+channel key is in `_awaiting`, and edits
that did not change the content. -/
def shouldHandleMessage (awaiting : List String) (clientUserId : String) (m : MsgLite)
    (oldContent : Option String) : Bool :=
  if m.partialMsg then false
  else if m.authorBot || m.authorId = clientUserId then false
  else if jsSetHas awaiting (m.authorId ++ m.channelId) then false
  else
    match oldContent with
    | some c => !(m.content = c)
    | none => true

/-! ### CommandoRegistry.findCommands -/

/-- JavaScript `String#includes`. -/
def strIncludes (s sub : String) : Bool :=
  decide (sub.data <:+: s.data)

/-- The registry's command descriptor as read by the search filters. -/
structure RegCommand where
  name : String
  aliases : List String
  groupId : String
  memberName : String
deriving DecidableEq, Repr

/-- `commandFilterExact` of `registry.ts`. -/
def commandFilterExact (search : String) (cmd : RegCommand) : Bool :=
  cmd.name == search || cmd.aliases.any (· == search)
    || (cmd.groupId ++ ":" ++ cmd.memberName) == search

/-- `commandFilterInexact` of `registry.ts`. -/
def commandFilterInexact (search : String) (cmd : RegCommand) : Bool :=
  strIncludes cmd.name search || (cmd.groupId ++ ":" ++ cmd.memberName) == search
    || cmd.aliases.any (fun a => strIncludes a search)

/-- `CommandoRegistry.findCommands` (the empty search string is falsy and
returns every command; the usability-context filter of that branch is not
modelled since it needs a search string of `null`). -/
def findCommands (commands : List RegCommand) (searchString : String) (exact : Bool) :
    List RegCommand :=
  if searchString.isEmpty then commands
  else
    let lcSearch := jsToLowerCase searchString
    let matched := commands.filter
      (fun c => if exact then commandFilterExact lcSearch c else commandFilterInexact lcSearch c)
    if exact then matched
    else
      match matched.find? (fun c => c.name == lcSearch || c.aliases.any (· == lcSearch)) with
      | some c => [c]
      | none => matched

/-! ### CommandoMessage.parseArgs (static tokenizer) -/

/-- JavaScript `\s`, the full set: tab, line feed, vertical tab, form feed,
carriage return, space, U+00A0, U+1680, U+2000 to U+200A, U+2028, U+2029,
U+202F, U+205F, U+3000 and U+FEFF. -/
def jsSpace (c : Char) : Bool :=
  c = ' ' || c = '\t' || c = '\n' || c = '\r' || c = Char.ofNat 11 || c = Char.ofNat 12
    || c = Char.ofNat 0xa0 || c = Char.ofNat 0x1680
    || (Char.ofNat 0x2000 ≤ c && c ≤ Char.ofNat 0x200a)
    || c = Char.ofNat 0x2028 || c = Char.ofNat 0x2029 || c = Char.ofNat 0x202f
    || c = Char.ofNat 0x205f || c = Char.ofNat 0x3000 || c = Char.ofNat 0xfeff

/-- One character of the smart-single-quote replacement: U+2018 and U+2019 become an apostrophe. -/
def smartSingle (c : Char) : Char :=
  if c = Char.ofNat 0x2018 || c = Char.ofNat 0x2019 then Char.ofNat 39 else c

/-- One character of the smart-double-quote replacement: U+201C and U+201D become a double quote. -/
def smartDouble (c : Char) : Char :=
  if c = Char.ofNat 0x201C || c = Char.ofNat 0x201D then Char.ofNat 34 else c

/-- `removeSmartQuotes`: smart single quotes become `'` (when allowed) and
smart double quotes become `"`. -/
def removeSmartQuotes (allowSingleQuote : Bool) (s : List Char) : List Char :=
  (if allowSingleQuote then s.map smartSingle else s).map smartDouble

/-- One match of the token regex: a quoted run (capture group 2) or a plain
non-whitespace run (capture group 3). -/
inductive TokMatch where
  | quoted (content : String)
  | plain (tok : String)
deriving DecidableEq, Repr

/-- `match[2] || match[3]`: an empty quoted capture is falsy, so the pushed
element is `undefined` (`none`). -/
def tokPush : TokMatch → Option String
  | .quoted c => if c.isEmpty then none else some c
  | .plain t => some t

/-- Splits a character list at the first occurrence of `q` (the lazy
`([^]*?)` up to the closing quote); `none` when `q` does not occur. -/
def splitAtQuote (q : Char) : List Char → Option (List Char × List Char)
  | [] => none
  | c :: rest =>
    if c = q then some ([], rest)
    else (splitAtQuote q rest).map (fun p => (c :: p.1, p.2))

/-- Whether `c` opens a quoted run for the active regex. -/
def isQuoteChar (allowSingleQuote : Bool) (c : Char) : Bool :=
  c = Char.ofNat 34 || (allowSingleQuote && c = Char.ofNat 39)

/-- One `regex.exec` step of the token regex
`\s*(?:("|')([^]*?)\1|(\S+))\s*`: skip whitespace, match a quoted run
(falling back to `\S+` when the quote is never closed) or a plain run,
then skip trailing whitespace. Returns the match and the rest of the
input (the text after `lastIndex`), or `none` when no token remains. -/
def execOnce (allowSingleQuote : Bool) (cs : List Char) : Option (TokMatch × List Char) :=
  let cs1 := cs.dropWhile jsSpace
  match cs1 with
  | [] => none
  | q :: rest =>
    let plainRes : TokMatch × List Char :=
      (.plain (String.mk (cs1.takeWhile (fun c => !jsSpace c))),
        (cs1.dropWhile (fun c => !jsSpace c)).dropWhile jsSpace)
    if isQuoteChar allowSingleQuote q then
      match splitAtQuote q rest with
      | some (content, rest2) => some (.quoted (String.mk content), rest2.dropWhile jsSpace)
      | none => some plainRes
    else some plainRes

/-- The `argCount` parameter as JavaScript sees it: missing, `Infinity`, or
a number. -/
inductive JsCount where
  | undef
  | inf
  | num (n : Int)
deriving DecidableEq, Repr

/-- The `while (--argCount && (match = regex.exec(...)))` loop. Returns the
pushed tokens, and `some rest` when the loop stopped with `match` still
truthy (so the remainder may be appended), `none` when it stopped because
`exec` returned `null`. Each successful `exec` consumes at least one
character, so `fuel = |input| + 1` covers every run. -/
def parseArgsLoop (allowSingleQuote : Bool) (fuel : Nat) (cs : List Char)
    (count : Option Int) : List (Option String) × Option (List Char) :=
  match fuel with
  | 0 => ([], none)
  | fuel + 1 =>
    if (match count with
        | none => true
        | some n => decide (n - 1 ≠ 0)) then
      match execOnce allowSingleQuote cs with
      | none => ([], none)
      | some (tok, rest) =>
        match parseArgsLoop allowSingleQuote fuel rest (count.map (fun n => n - 1)) with
        | (toks, stop) => (tokPush tok :: toks, stop)
    else ([], some cs)

/-- The remainder regex `^("|')([^]*)\1$` with replacement `$2`: strips one
pair of quotes wrapping the whole remainder, otherwise leaves it alone. -/
def stripWrapQuotes (allowSingleQuote : Bool) (cs : List Char) : List Char :=
  match cs with
  | [] => []
  | q :: rest =>
    if isQuoteChar allowSingleQuote q && !rest.isEmpty && rest.getLast? = some q then
      rest.dropLast
    else cs

/-- `argCount ||= argStringModified.length`: a missing or zero (falsy) count
becomes the string length; `Infinity` carries no count. -/
def parseArgsCount (cs : List Char) : JsCount → Option Int
  | .undef => some cs.length
  | .num n => if n = 0 then some cs.length else some n
  | .inf => none

/-- The tail of `parseArgs` after the `while` loop: when the loop stopped
with `match` truthy and text remains, push it as-is except for wrapping
quotes. -/
def parseArgsAssemble (allowSingleQuote : Bool)
    (res : List (Option String) × Option (List Char)) : List (Option String) :=
  match res.2 with
  | none => res.1
  | some rest =>
    if rest.isEmpty then res.1
    else res.1 ++ [some (String.mk (stripWrapQuotes allowSingleQuote rest))]

/-- Static `CommandoMessage.parseArgs`: smart-quote normalisation, the
token-regex `while` loop, then the remainder append. -/
def parseArgs (argString : String) (argCount : JsCount) (allowSingleQuote : Bool) :
    List (Option String) :=
  parseArgsAssemble allowSingleQuote
    (parseArgsLoop allowSingleQuote
      ((removeSmartQuotes allowSingleQuote argString.data).length + 1)
      (removeSmartQuotes allowSingleQuote argString.data)
      (parseArgsCount (removeSmartQuotes allowSingleQuote argString.data) argCount))

/-! ### CommandoMessage.run: policy gates, throttling, argument collection -/

/-- `ThrottlingOptions` (`usages` allowed within `duration` seconds). -/
structure ThrottlingOptions where
  usages : Nat
  duration : Nat
deriving DecidableEq, Repr

/-- The `Throttle` object of `src/types/client.d.ts`: window start timestamp
(milliseconds) and usage count. Its deletion timer is modelled through
`throttleGet` below. -/
structure Throttle where
  start : Int
  usages : Nat
deriving DecidableEq, Repr

/-- Modelled from the spec: the implementation of `Command.throttle` is not
in the sources (only its `.d.ts` declaration — "Creates/obtains the
throttle object for a user, if necessary (owners are excluded)" — and its
caller in `CommandoMessage.run`). Per the spec, a throttle is "created
lazily on first use within a window" with the current time as start and
zero usages, keyed by user, and "destroyed automatically when its window
timer fires"; the timer is modelled by dropping every entry whose window
of `duration` seconds has elapsed by the time of the call. Returns `none`
when the command has no throttling options or the user is an owner. -/
def throttleGet (throttling : Option ThrottlingOptions) (isOwner : Bool)
    (throttles : List (String × Throttle)) (userId : String) (now : Int) :
    Option Throttle × List (String × Throttle) :=
  match throttling with
  | none => (none, throttles)
  | some t =>
    if isOwner then (none, throttles)
    else
      let live := throttles.filter (fun p => decide (now < p.2.start + (t.duration : Int) * 1000))
      match live.lookup userId with
      | some th => (some th, live)
      | none => (some ⟨now, 0⟩, live ++ [(userId, ⟨now, 0⟩)])

/-- `throttle.usages++` on the user's entry. -/
def bumpThrottle (throttles : List (String × Throttle)) (userId : String) :
    List (String × Throttle) :=
  throttles.map (fun p => if p.1 = userId then (p.1, ⟨p.2.start, p.2.usages + 1⟩) else p)

/-- `Command.hasPermission` result: `true`, a block-reason string, or the
missing-permissions array. -/
inductive PermRes where
  | ok
  | reasonStr (s : String)
  | missing (perms : List String)
deriving DecidableEq, Repr

/-- Outcome of `command.argsCollector.obtain(this, provided)` as observed by
`run` (the fields it reads: `cancelled` and `prompts.length`). -/
inductive CollOutcome where
  | success
  | cancelled (cause : Cancel) (promptsCount : Nat)
deriving DecidableEq, Repr

/-- Client events emitted by `run` that the claims refer to. -/
inductive Ev where
  | block (reason : String) (remaining : Option ℚ)
  | cancelEv (cause : Cancel)
  | runEv
  | deprecationNotice
deriving DecidableEq, Repr

/-- The user-visible reply produced by `run` before/instead of the body. -/
inductive ReplyLite where
  | noReply
  | direct
  | blockReply (reason : String)
  | formatError
  | cancelledMsg
  | bodyResult
deriving DecidableEq, Repr

/-- The command fields read by `CommandoMessage.run`. -/
structure CmdLite where
  dmOnly : Bool
  guildOnly : Bool
  guildOwnerOnly : Bool
  nsfw : Bool
  deprecated : Bool
  throttling : Option ThrottlingOptions
  clientPermissions : Option (List String)
  hasArgsCollector : Bool
deriving Repr

/-- The message/channel context read by `CommandoMessage.run`. -/
structure CtxLite where
  inGuild : Bool
  isDM : Bool
  clientCanView : Bool
  clientCanSend : Bool
  channelNsfw : Bool
  permRes : PermRes
  clientMissing : List String
  patternMatches : Option (List String)
  collectorOutcome : CollOutcome
  authorId : String
  isOwner : Bool
deriving Repr

/-- What a `run` call did: events emitted, the reply it produced, whether the
command body (`command.run`) was invoked, and the throttle map afterwards. -/
structure RunOutcome where
  events : List Ev
  reply : ReplyLite
  invokedBody : Bool
  throttles : List (String × Throttle)
deriving DecidableEq, Repr

/-- The throttling gate of `CommandoMessage.run`:
`if (throttle && throttle.usages + 1 > command.throttling.usages)` with
`remaining = (throttle.start + throttling.duration * 1000 - Date.now()) / 1000`
in seconds. Returns the `remaining` value when the invocation is blocked. -/
def throttleBlockOf (throttling : Option ThrottlingOptions) (th1 : Option Throttle)
    (now : Int) : Option ℚ :=
  match th1, throttling with
  | some th, some t =>
    if th.usages + 1 > t.usages then
      some (((th.start + (t.duration : Int) * 1000 - now : Int) : ℚ) / 1000)
    else none
  | _, _ => none

/-- The tail of `CommandoMessage.run` once a command body invocation is due:
`if (throttle) throttle.usages++;` followed by `command.run(...)` and the
`commandRun` emit. -/
def runInvoke (evs0 : List Ev) (tg : Option Throttle × List (String × Throttle))
    (authorId : String) : RunOutcome :=
  ⟨evs0 ++ [.runEv], .bodyResult, true,
    if tg.1.isSome then bumpThrottle tg.2 authorId else tg.2⟩

/-- The argument-resolution section of `CommandoMessage.run` (lines
`let args = patternMatches; ... if (!args && command.argsCollector) ...`):
pattern matches bypass the collector; a cancelled collection with zero
prompts or cause `promptLimit` replies with a `CommandFormatError`, any
other cancellation emits `commandCancel` and replies `Cancelled command.`;
neither invokes the body. -/
def argsPhase (cmd : CmdLite) (ctx : CtxLite) (evs0 : List Ev)
    (tg : Option Throttle × List (String × Throttle)) : RunOutcome :=
  match ctx.patternMatches with
  | some _ => runInvoke evs0 tg ctx.authorId
  | none =>
    if cmd.hasArgsCollector then
      match ctx.collectorOutcome with
      | .success => runInvoke evs0 tg ctx.authorId
      | .cancelled cause promptsCount =>
        if promptsCount = 0 ∨ cause = Cancel.promptLimit then
          ⟨evs0, .formatError, false, tg.2⟩
        else
          ⟨evs0 ++ [.cancelEv cause], .cancelledMsg, false, tg.2⟩
    else runInvoke evs0 tg ctx.authorId

/-- `CommandoMessage.run`: the gate chain (client send permission, dmOnly,
guildOnly/guildOwnerOnly, nsfw, user permissions, client permissions,
throttling), the deprecation notice, then `argsPhase`, in source order. -/
def messageRun (cmd : CmdLite) (ctx : CtxLite) (throttles : List (String × Throttle))
    (now : Int) : RunOutcome :=
  if ctx.inGuild && ctx.clientCanView && !ctx.clientCanSend then
    ⟨[], .direct, false, throttles⟩
  else if cmd.dmOnly && ctx.inGuild then
    ⟨[.block "dmOnly" none], .blockReply "dmOnly", false, throttles⟩
  else if (cmd.guildOnly || cmd.guildOwnerOnly) && !ctx.inGuild then
    ⟨[.block "guildOnly" none], .blockReply "guildOnly", false, throttles⟩
  else if cmd.nsfw && !ctx.channelNsfw then
    ⟨[.block "nsfw" none], .blockReply "nsfw", false, throttles⟩
  else if !ctx.isDM && ctx.permRes ≠ PermRes.ok then
    match ctx.permRes with
    | .reasonStr s => ⟨[.block s none], .blockReply s, false, throttles⟩
    | _ => ⟨[.block "userPermissions" none], .blockReply "userPermissions", false, throttles⟩
  else if !ctx.isDM && cmd.clientPermissions.isSome && !ctx.clientMissing.isEmpty then
    ⟨[.block "clientPermissions" none], .blockReply "clientPermissions", false, throttles⟩
  else
    match throttleBlockOf cmd.throttling
        (throttleGet cmd.throttling ctx.isOwner throttles ctx.authorId now).1 now with
    | some remaining =>
      ⟨[.block "throttling" (some remaining)], .blockReply "throttling", false,
        (throttleGet cmd.throttling ctx.isOwner throttles ctx.authorId now).2⟩
    | none =>
      argsPhase cmd ctx (if cmd.deprecated then [.deprecationNotice] else [])
        (throttleGet cmd.throttling ctx.isOwner throttles ctx.authorId now)

/-- Three successive invocations of the same command by the same user at
times `t1`, `t2`, `t3`, threading the throttle map, starting empty. -/
def runThrice (cmd : CmdLite) (ctx : CtxLite) (t1 t2 t3 : Int) : RunOutcome :=
  messageRun cmd ctx
    (messageRun cmd ctx (messageRun cmd ctx [] t1).throttles t2).throttles t3

/-! ### Concrete instances used by witnesses and counterexamples -/

/-- A minimal string-like argument type: accepts any defined value, parses
it to itself, and treats absent/empty input as empty. -/
def demoStringType : ArgTypeSpec String where
  validate := fun v => match v with | some _ => .b true | none => .b false
  parse := fun s => some s
  isEmpty := fun v =>
    match v with
    | some (.array xs) => xs.isEmpty
    | some (.single s) => s.isEmpty
    | none => true

/-- A required argument (no default) of the demo string type. -/
def demoRequiredArg : ArgSpec String where
  required := true
  infinite := false
  dflt := .none
  error := none
  type := some demoStringType
  validator := none
  parser := none
  emptyChecker := none

/-- An optional argument with a (truthy) default value. -/
def demoOptionalArg : ArgSpec String :=
  { demoRequiredArg with required := false, dflt := .lit "dv" true }

/-- A required argument whose type accepts every value but whose `parse`
returns `null` (the declared return type of `ArgumentType#parse` and
`ArgumentInfo#parse` is `... | null`). -/
def demoNullParseArg : ArgSpec String :=
  { demoRequiredArg with type := some { demoStringType with parse := fun _ => none } }

/-- A required infinite argument of the demo string type. -/
def demoInfiniteArg : ArgSpec String :=
  { demoRequiredArg with infinite := true }

/-- A numeric-like type that rejects every raw value. -/
def demoRejectType : ArgTypeSpec Int where
  validate := fun _ => .b false
  parse := fun _ => some 0
  isEmpty := fun v =>
    match v with
    | some (.array xs) => xs.isEmpty
    | some (.single s) => s.isEmpty
    | none => true

/-- An infinite argument with the falsy literal default `0` (a legitimate
`ArgumentDefault` — the docs only forbid `null`). -/
def demoInfFalsyDefault : ArgSpec Int where
  required := false
  infinite := true
  dflt := .lit 0 false
  error := none
  type := some demoRejectType
  validator := none
  parser := none
  emptyChecker := none

/-- Registered command `foo`. -/
def demoFoo : RegCommand := ⟨"foo", [], "grp", "foo"⟩

/-- Registered command `foobar`. -/
def demoFoobar : RegCommand := ⟨"foobar", [], "grp", "foobar"⟩

/-- A registry holding `foo` and `foobar`. -/
def demoCommands : List RegCommand := [demoFoo, demoFoobar]

/-- A command throttled to 2 usages per 10 seconds, with no other
restrictions and no argument collector. -/
def demoThrottleCmd : CmdLite where
  dmOnly := false
  guildOnly := false
  guildOwnerOnly := false
  nsfw := false
  deprecated := false
  throttling := some ⟨2, 10⟩
  clientPermissions := none
  hasArgsCollector := false

/-- A direct-message context from user `u1` that passes every policy gate. -/
def demoDMCtx : CtxLite where
  inGuild := false
  isDM := true
  clientCanView := true
  clientCanSend := true
  channelNsfw := false
  permRes := .ok
  clientMissing := []
  patternMatches := none
  collectorOutcome := .success
  authorId := "u1"
  isOwner := false

/-- An unthrottled command with an argument collector. -/
def demoCollectorCmd : CmdLite :=
  { demoThrottleCmd with throttling := none, hasArgsCollector := true }

/-- The gate-passing DM context whose argument collection was cancelled with
cause `promptLimit` after two prompts were sent. -/
def demoPromptLimitCtx : CtxLite :=
  { demoDMCtx with collectorOutcome := .cancelled .promptLimit 2 }

/-! ## Helper lemmas -/

theorem jsSetHas_add_self (s : List String) (x : String) :
    jsSetHas (jsSetAdd s x) x = true := by
  unfold jsSetAdd jsSetHas
  split
  · assumption
  · simp

theorem jsSetHas_delete_self (s : List String) (x : String) :
    jsSetHas (jsSetDelete s x) x = false := by
  unfold jsSetDelete jsSetHas
  simp

theorem collectorObtainGo_after {V : Type} (aw : List String) (id : String) :
    ∀ (args : List (String × ArgOutcome V)) (vAcc : List (String × Option (ArgValue V)))
      (pAcc : Nat) (aAcc : List String) (trace : List (List String)),
      (collectorObtainGo aw id args vAcc pAcc aAcc trace).awaitingAfter =
        jsSetDelete aw id := by
  intro args
  induction args with
  | nil => intro vAcc pAcc aAcc trace; rfl
  | cons hd tl ih =>
    intro vAcc pAcc aAcc trace
    rcases hd with ⟨key, outcome⟩
    rw [collectorObtainGo.eq_def]
    dsimp only
    repeat' split
    all_goals first | rfl | (exact ih _ _ _ _)

theorem collectorObtainGo_states {V : Type} (aw : List String) (id : String) :
    ∀ (args : List (String × ArgOutcome V)) (vAcc : List (String × Option (ArgValue V)))
      (pAcc : Nat) (aAcc : List String) (trace : List (List String)) (s : List String),
      s ∈ (collectorObtainGo aw id args vAcc pAcc aAcc trace).statesAtArgs →
      s ∈ trace ∨ s = aw := by
  intro args
  induction args with
  | nil => intro vAcc pAcc aAcc trace s hs; exact Or.inl hs
  | cons hd tl ih =>
    intro vAcc pAcc aAcc trace s hs
    rcases hd with ⟨key, outcome⟩
    rw [collectorObtainGo.eq_def] at hs
    dsimp only at hs
    repeat' split at hs
    all_goals try
      (exact (ih _ _ _ _ _ hs).elim
        (fun h => (List.mem_append.mp h).elim Or.inl
          (fun h2 => Or.inr (List.mem_singleton.mp h2)))
        Or.inr)
    all_goals
      (exact (List.mem_append.mp hs).elim Or.inl
        (fun h2 => Or.inr (List.mem_singleton.mp h2)))

theorem singleLoop_result_iff {V : Type} {a : ArgSpec V}
    (hparse : ∀ s pv, a.parseOn s = some pv → pv ≠ none) :
    ∀ (replies : List Reply) (value : Option String) (limit : LimitVal)
      (prompts : Nat) (answers : List String) (empty : Bool) (valid : JsValid)
      (r : ArgResult V),
      singleLoop a value replies limit prompts answers empty valid = ORes.result r →
      ((r.value = none) ↔ r.cancelled ≠ none) := by
  intro replies
  induction replies with
  | nil =>
    intro value limit prompts answers empty valid r h
    rw [singleLoop.eq_def] at h
    dsimp only at h
    repeat' split at h
    all_goals try
      (rename_i pv hp
       cases h
       cases pv with
       | none => exact absurd rfl (hparse _ _ hp)
       | some v => simp)
    all_goals (cases h <;> try simp)
  | cons head tail ih =>
    intro value limit prompts answers empty valid r h
    rw [singleLoop.eq_def] at h
    cases head <;> dsimp only at h
    case timeout =>
      repeat' split at h
      all_goals try
        (rename_i pv hp
         cases h
         cases pv with
         | none => exact absurd rfl (hparse _ _ hp)
         | some v => simp)
      all_goals (cases h <;> try simp)
    case msg c =>
      repeat' split at h
      all_goals try
        (rename_i pv hp
         cases h
         cases pv with
         | none => exact absurd rfl (hparse _ _ hp)
         | some v => simp)
      all_goals try (cases h <;> try simp)
      all_goals (exact ih _ _ _ _ _ _ _ h)

theorem infInner_done_result_iff {V : Type} {a : ArgSpec V}
    (hd : a.dflt = DefaultVal.none) :
    ∀ (replies : List Reply) (results : List (Option V)) (limit : LimitVal)
      (prompts : Nat) (answers : List String) (value : Option String) (valid : JsValid)
      (attempts : Nat) (r : ArgResult V),
      infInner a results replies limit prompts answers value valid attempts =
        InnerOut.done (ORes.result r) →
      ((r.value = none) ↔ r.cancelled ≠ none) := by
  intro replies
  induction replies with
  | nil =>
    intro results limit prompts answers value valid attempts r h
    rw [infInner.eq_def] at h
    dsimp only at h
    repeat' split at h
    all_goals (cases h <;> try simp)
  | cons head tail ih =>
    intro results limit prompts answers value valid attempts r h
    rw [infInner.eq_def] at h
    cases head <;> dsimp only at h
    case timeout =>
      repeat' split at h
      all_goals (cases h <;> try simp)
    case msg c =>
      repeat' split at h
      all_goals try
        (simp only [finishResult] at h
         cases h
         simp only [hd, DefaultVal.jsTruthy]
         by_cases hres : results.isEmpty <;> simp [hres])
      all_goals try (cases h <;> try simp)
      all_goals (exact ih _ _ _ _ _ _ _ _ h)

theorem infLoop_result_iff {V : Type} {a : ArgSpec V}
    (hd : a.dflt = DefaultVal.none) :
    ∀ (fuel : Nat) (values : Option (List String)) (currentVal : Nat)
      (results : List (Option V)) (replies : List Reply) (limit : LimitVal)
      (prompts : Nat) (answers : List String) (r : ArgResult V),
      infLoop a values fuel currentVal results replies limit prompts answers =
        ORes.result r →
      ((r.value = none) ↔ r.cancelled ≠ none) := by
  intro fuel
  induction fuel with
  | zero =>
    intro values currentVal results replies limit prompts answers r h
    rw [infLoop.eq_def] at h
    exact absurd h (by simp)
  | succ fuel ih =>
    intro values currentVal results replies limit prompts answers r h
    rw [infLoop.eq_def] at h
    dsimp only at h
    repeat' split at h
    all_goals try
      (rename_i o heq
       cases h
       exact infInner_done_result_iff hd _ _ _ _ _ _ _ _ _ heq)
    all_goals try (cases h <;> try simp)
    all_goals (exact ih _ _ _ _ _ _ _ _ h)

theorem smartFix (e : Char) :
    smartSingle (smartDouble (smartSingle e)) = smartDouble (smartSingle e) ∧
    smartDouble (smartDouble (smartSingle e)) = smartDouble (smartSingle e) := by
  unfold smartSingle smartDouble
  by_cases h1 : (e = Char.ofNat 0x2018 || e = Char.ofNat 0x2019) = true
  · rw [if_pos h1]
    decide
  · rw [if_neg h1]
    by_cases h2 : (e = Char.ofNat 0x201C || e = Char.ofNat 0x201D) = true
    · rw [if_pos h2]
      decide
    · rw [if_neg h2, if_neg h1, if_neg h2]
      exact ⟨rfl, rfl⟩

theorem removeSmartQuotes_cons (c : Char) (t : List Char) :
    removeSmartQuotes true (c :: t) =
      smartDouble (smartSingle c) :: removeSmartQuotes true t := rfl

theorem removeSmartQuotes_fixed (m l : List Char)
    (h : ∀ c ∈ m, c ∈ removeSmartQuotes true l) :
    removeSmartQuotes true m = m := by
  induction m with
  | nil => rfl
  | cons c t ih =>
    have hc : c ∈ removeSmartQuotes true l := h c (List.mem_cons_self c t)
    have ht : removeSmartQuotes true t = t :=
      ih (fun x hx => h x (List.mem_cons_of_mem c hx))
    rw [removeSmartQuotes_cons, ht]
    unfold removeSmartQuotes at hc
    rw [if_pos rfl, List.map_map] at hc
    rcases List.mem_map.mp hc with ⟨e, _, he⟩
    have hfix := smartFix e
    simp only [Function.comp] at he
    rw [← he, hfix.1, hfix.2]

theorem dropWhile_cons_head (p : Char → Bool) :
    ∀ (l : List Char) (x : Char) (xs : List Char),
      l.dropWhile p = x :: xs → p x = false := by
  intro l
  induction l with
  | nil => intro x xs h; exact absurd h (by simp)
  | cons c t ih =>
    intro x xs h
    rw [List.dropWhile_cons] at h
    split at h
    · exact ih x xs h
    · cases h
      rename_i hnc
      exact Bool.not_eq_true _ ▸ (by simpa using hnc)

theorem splitAtQuote_spec (q : Char) :
    ∀ (l a b : List Char), splitAtQuote q l = some (a, b) →
      b <:+ l ∧ b.length < l.length := by
  intro l
  induction l with
  | nil => intro a b h; exact absurd h (by simp [splitAtQuote])
  | cons c t ih =>
    intro a b h
    rw [splitAtQuote] at h
    split at h
    · cases h
      exact ⟨⟨[c], rfl⟩, by simp⟩
    · cases hs : splitAtQuote q t with
      | none => rw [hs] at h; exact absurd h (by simp)
      | some p =>
        rw [hs] at h
        simp only [Option.map_some'] at h
        cases h
        have hb := ih p.1 p.2 (by rw [hs])
        exact ⟨hb.1.trans ⟨[c], rfl⟩, Nat.lt_succ_of_lt hb.2⟩

theorem execOnce_spec (a : Bool) (cs : List Char) (tok : TokMatch) (rest : List Char)
    (h : execOnce a cs = some (tok, rest)) :
    rest <:+ cs ∧ rest.length < cs.length := by
  rw [execOnce.eq_def] at h
  dsimp only at h
  cases hq : cs.dropWhile jsSpace with
  | nil => rw [hq] at h; exact absurd h (by simp)
  | cons q r =>
    rw [hq] at h
    dsimp only at h
    have hqcs : q :: r <:+ cs := hq ▸ List.dropWhile_suffix jsSpace
    have hlen : r.length + 1 ≤ cs.length := by
      have := hqcs.length_le
      simpa using this
    have hqs : jsSpace q = false := dropWhile_cons_head jsSpace cs q r hq
    have hplain :
        ((q :: r).dropWhile (fun c => !jsSpace c)).dropWhile jsSpace <:+ cs ∧
        (((q :: r).dropWhile (fun c => !jsSpace c)).dropWhile jsSpace).length <
          cs.length := by
      have h1 : (q :: r).dropWhile (fun c => !jsSpace c) =
          r.dropWhile (fun c => !jsSpace c) := by
        rw [List.dropWhile_cons, if_pos (by simp [hqs])]
      constructor
      · exact ((List.dropWhile_suffix jsSpace).trans
          (List.dropWhile_suffix (fun c => !jsSpace c))).trans hqcs
      · calc (((q :: r).dropWhile (fun c => !jsSpace c)).dropWhile jsSpace).length
            ≤ ((q :: r).dropWhile (fun c => !jsSpace c)).length :=
              (List.dropWhile_suffix jsSpace).length_le
          _ = (r.dropWhile (fun c => !jsSpace c)).length := by rw [h1]
          _ ≤ r.length := (List.dropWhile_suffix (fun c => !jsSpace c)).length_le
          _ < cs.length := hlen
    split at h
    · split at h
      · rename_i content rest2 hsplit
        cases h
        have hs := splitAtQuote_spec q r content rest2 hsplit
        constructor
        · exact ((List.dropWhile_suffix jsSpace).trans
            (hs.1.trans (List.suffix_cons q r))).trans hqcs
        · calc (rest2.dropWhile jsSpace).length ≤ rest2.length :=
              (List.dropWhile_suffix jsSpace).length_le
            _ < r.length := hs.2
            _ < cs.length := hlen
      · cases h
        exact hplain
    · cases h
      exact hplain

theorem parseArgsLoop_fuel (a : Bool) :
    ∀ (f1 : Nat) (cs : List Char) (f2 : Nat) (count : Option Int),
      cs.length < f1 → cs.length < f2 →
      parseArgsLoop a f1 cs count = parseArgsLoop a f2 cs count := by
  intro f1
  induction f1 with
  | zero => intro cs f2 count h1 _; exact absurd h1 (by simp)
  | succ f1 ih =>
    intro cs f2 count h1 h2
    cases f2 with
    | zero => exact absurd h2 (by simp)
    | succ f2 =>
      rw [parseArgsLoop.eq_def, parseArgsLoop.eq_def]
      dsimp only
      split
      · cases hex : execOnce a cs with
        | none => rfl
        | some pr =>
          rcases pr with ⟨tok, rest⟩
          dsimp only
          have hlen := (execOnce_spec a cs tok rest hex).2
          rw [ih rest f2 (count.map (fun n => n - 1))
            (lt_of_lt_of_le hlen (Nat.lt_succ_iff.mp h1))
            (lt_of_lt_of_le hlen (Nat.lt_succ_iff.mp h2))]
      · rfl

theorem parseArgsLoop_length (a : Bool) :
    ∀ (fuel : Nat) (cs : List Char) (n : Int), 1 ≤ n →
      (parseArgsLoop a fuel cs (some n)).1.length ≤ (n - 1).toNat := by
  intro fuel
  induction fuel with
  | zero => intro cs n _; simp [parseArgsLoop]
  | succ fuel ih =>
    intro cs n hn
    rw [parseArgsLoop.eq_def]
    dsimp only
    split
    · rename_i hk
      have hne : n - 1 ≠ 0 := by simpa using hk
      cases hex : execOnce a cs with
      | none => simp
      | some pr =>
        rcases pr with ⟨tok, rest⟩
        simp only [Option.map_some']
        have hrec := ih rest (n - 1) (by omega)
        cases hl : parseArgsLoop a fuel rest (some (n - 1)) with
        | mk toks stop =>
          rw [hl] at hrec
          dsimp only at hrec ⊢
          simp only [List.length_cons]
          omega
    · simp

theorem parseArgsAssemble_cons (a : Bool) (x : Option String)
    (res : List (Option String) × Option (List Char)) :
    parseArgsAssemble a (x :: res.1, res.2) = x :: parseArgsAssemble a res := by
  unfold parseArgsAssemble
  rcases res with ⟨toks, stop⟩
  cases stop with
  | none => rfl
  | some rest =>
    dsimp only
    split <;> rfl

/-! ## Claims -/

/-- Claim C1: the ordering check of the `ArgumentCollector` constructor does
not throw for a required argument (no `default` property, i.e. `undefined`)
placed after an optional one, because `undefined !== null` marks every such
argument as optional too; only the infinite-argument check throws. The
claim — and the constructor's own error message — require the first input
to fail as well. -/
theorem claim1_ordering_not_enforced :
    collectorCtor [⟨JsField.val, false⟩, ⟨JsField.undef, false⟩] = .ok () ∧
    collectorCtor [⟨JsField.undef, true⟩, ⟨JsField.undef, false⟩] =
      .error "No other argument may come after an infinite argument." :=
  ⟨rfl, rfl⟩

/-- Claim C2 counterexample: a required argument with no default whose type
accepts every raw value but parses it to `null` (the declared return type
of `ArgumentType#parse` is `... | null`) makes `obtain` return a `null`
value together with a `null` cancellation cause. -/
theorem claim2_counterexample :
    demoNullParseArg.required = true ∧ demoNullParseArg.dflt = DefaultVal.none ∧
    demoNullParseArg.obtain (some (.single "x")) [] .inf = .result ⟨none, none, 0, []⟩ :=
  ⟨rfl, rfl, rfl⟩

/-- Claim C2 (amended): for a required argument with no default, every
result returned by `Argument.obtain` has a non-null value exactly when its
cancellation cause is null, provided the argument's parse function never
returns null; without that proviso the success path can pair a null value
with a null cause (see the counterexample). -/
theorem claim2_value_iff_cancelled {V : Type} (a : ArgSpec V) (value : Option RawInput)
    (replies : List Reply) (limit : LimitVal) (r : ArgResult V)
    (hreq : a.required = true) (hd : a.dflt = DefaultVal.none)
    (hparse : ∀ s pv, a.parseOn s = some pv → pv ≠ none)
    (h : a.obtain value replies limit = ORes.result r) :
    (r.value = none) ↔ r.cancelled ≠ none := by
  rw [ArgSpec.obtain.eq_def, hreq] at h
  simp only [Bool.not_true, Bool.and_false, Bool.false_eq_true, if_false] at h
  split at h
  · rw [ArgSpec.obtainInfinite] at h
    exact infLoop_result_iff hd _ _ _ _ _ _ _ _ _ h
  · split at h
    · exact absurd h (by simp)
    · exact singleLoop_result_iff hparse _ _ _ _ _ _ _ _ h

theorem claim2_witness :
    (demoRequiredArg.obtain none [Reply.msg "hello"] LimitVal.inf =
      ORes.result ⟨some (.one "hello"), none, 1, ["hello"]⟩) ∧
    (((⟨some (.one "hello"), none, 1, ["hello"]⟩ : ArgResult String).value = none) ↔
      (⟨some (.one "hello"), none, 1, ["hello"]⟩ : ArgResult String).cancelled ≠ none) := by
  refine ⟨rfl, ?_⟩
  exact claim2_value_iff_cancelled demoRequiredArg none [Reply.msg "hello"] LimitVal.inf
    _ rfl rfl (fun s pv hp => by cases hp; simp [demoStringType]) rfl

/-- Claim C3: an argument that is not required returns its resolved default
on empty input, with cancellation cause null and empty prompt and answer
lists — no prompt is sent. A function default is resolved by calling it
with the message and the argument (`DefaultVal.fn` carries that resolved
value). -/
theorem claim3_default_on_empty {V : Type} (a : ArgSpec V) (value : Option RawInput)
    (replies : List Reply) (limit : LimitVal) (d : V)
    (hreq : a.required = false) (hempty : a.isEmptyOn value = true)
    (hd : a.dflt.resolve = some d) :
    a.obtain value replies limit = .result ⟨some (.one d), none, 0, []⟩ := by
  unfold ArgSpec.obtain
  simp [hreq, hempty, hd]

theorem claim3_witness :
    demoOptionalArg.required = false ∧ demoOptionalArg.isEmptyOn none = true ∧
    demoOptionalArg.dflt.resolve = some "dv" ∧
    demoOptionalArg.obtain none [] .inf = .result ⟨some (.one "dv"), none, 0, []⟩ :=
  ⟨rfl, rfl, rfl, claim3_default_on_empty demoOptionalArg none [] .inf "dv" rfl rfl rfl⟩

/-- Claim C4 counterexample: an infinite argument with the falsy literal
default `0` still gets cancellation cause `user` on a zero-result
`finish`, because the code tests the JavaScript truthiness of
`this.default` rather than its existence. -/
theorem claim4_counterexample :
    demoInfFalsyDefault.dflt ≠ DefaultVal.none ∧
    demoInfFalsyDefault.obtain (some (.array ["x"])) [Reply.msg "finish"] .inf =
      .result ⟨none, some .user, 1, ["finish"]⟩ :=
  ⟨by decide, rfl⟩

/-- Claim C4 (amended): on a case-insensitive `finish` reply the infinite
collection loop returns the values collected so far, in collection order,
with cancellation cause null when at least one value was collected; with
zero collected values it returns a null value, cancelled with cause
`user` exactly when the argument's `default` field is falsy (absent or a
falsy literal), and not cancelled when the `default` field is truthy
(any function default included). -/
theorem claim4_finish_branch {V : Type} (a : ArgSpec V) (results : List (Option V))
    (rest : List Reply) (limit : LimitVal) (prompts : Nat) (answers : List String)
    (value : Option String) (valid : JsValid) (attempts : Nat) (c : String)
    (hinf : a.infinite = true) (hvalid : valid.isInvalid = true)
    (hlimit : limit.exceededBy (attempts + 1) = false) (hc : jsToLowerCase c = "finish") :
    infInner a results (Reply.msg c :: rest) limit prompts answers value valid attempts =
      .done (.result ⟨(if results.isEmpty then none else some (.many results)),
        (if a.dflt.jsTruthy then none
         else if results.isEmpty then some .user else none),
        infPromptBump value results prompts, answers ++ [c]⟩) := by
  rw [infInner, if_pos hvalid, if_neg (by rw [hlimit]; exact Bool.false_ne_true),
    if_pos hc]
  rfl

theorem claim4_witness :
    demoInfiniteArg.infinite = true ∧
    infInner demoInfiniteArg [some "one"] [Reply.msg "FINISH"] .inf 1 ["one"] none
        (.b false) 0 =
      .done (.result ⟨some (.many [some "one"]), none, 1, ["one", "FINISH"]⟩) ∧
    demoInfiniteArg.obtain none [Reply.msg "one", Reply.msg "finish"] .inf =
      .result ⟨some (.many [some "one"]), none, 1, ["one", "finish"]⟩ := by
  refine ⟨rfl, ?_, rfl⟩
  exact claim4_finish_branch demoInfiniteArg [some "one"] [] .inf 1 ["one"] none
    (.b false) 0 "FINISH" rfl rfl rfl rfl

/-- Claim C5: `ArgumentCollector.obtain` adds the `author.id + channelId`
key to the dispatcher's `_awaiting` set before any argument is processed,
the key is gone when `obtain` completes — on success, cancellation or a
rethrown exception — and while any key is in the set,
`shouldHandleMessage` returns `false` for every message of that user in
that channel. -/
theorem claim5_awaiting_guard {V : Type} (awaiting : List String) (id : String)
    (args : List (String × ArgOutcome V)) :
    (∀ s ∈ (collectorObtain awaiting id args).statesAtArgs, jsSetHas s id = true) ∧
    jsSetHas (collectorObtain awaiting id args).awaitingAfter id = false ∧
    (∀ (aw : List String) (clientUserId : String) (m : MsgLite) (old : Option String),
       jsSetHas aw (m.authorId ++ m.channelId) = true →
       shouldHandleMessage aw clientUserId m old = false) := by
  refine ⟨?_, ?_, ?_⟩
  · intro s hs
    rcases collectorObtainGo_states _ _ _ _ _ _ _ _ hs with h | h
    · simp at h
    · subst h
      exact jsSetHas_add_self awaiting id
  · rw [collectorObtain, collectorObtainGo_after]
    exact jsSetHas_delete_self _ _
  · intro aw clientUserId m old hmem
    unfold shouldHandleMessage
    repeat' split
    all_goals first | rfl | simp_all

theorem claim5_witness :
    jsSetHas (collectorObtain ["zz"] "u1c1"
      [("a", ArgOutcome.ok (V := String) ⟨some (.one "x"), none, 1, ["x"]⟩),
       ("b", ArgOutcome.ok ⟨none, some .user, 2, ["y"]⟩)]).awaitingAfter "u1c1" = false ∧
    shouldHandleMessage ["u1c1"] "bot" ⟨false, false, "u1", "c1", "hi"⟩ none = false := by
  constructor
  · exact (claim5_awaiting_guard ["zz"] "u1c1" _).2.1
  · exact (claim5_awaiting_guard (V := String) [] "" []).2.2 ["u1c1"] "bot"
      ⟨false, false, "u1", "c1", "hi"⟩ none rfl

/-- Claim C6 counterexample: a collection cancelled with cause `promptLimit`
after two prompts were sent is reported as a command-format (malformed
usage) error with no `commandCancel` event, although the claim requires
every cancellation with at least one prompt to emit the cancellation
event and reply that the command was cancelled. -/
theorem claim6_counterexample :
    demoPromptLimitCtx.collectorOutcome = .cancelled .promptLimit 2 ∧
    messageRun demoCollectorCmd demoPromptLimitCtx [] 0 = ⟨[], .formatError, false, []⟩ :=
  ⟨rfl, rfl⟩

/-- Claim C6 (amended): when the argument collection of a message command is
cancelled, the command body is never invoked; a cancellation whose prompt
list is empty, or whose cause is `promptLimit`, is reported as a
malformed-usage (command format) error reply without a cancellation
event, and every other cancellation emits the `commandCancel` event
carrying its cause and replies that the command was cancelled. -/
theorem claim6_cancel_handling (cmd : CmdLite) (ctx : CtxLite)
    (throttles : List (String × Throttle)) (now : Int) (cause : Cancel)
    (promptsCount : Nat)
    (hsend : (ctx.inGuild && ctx.clientCanView && !ctx.clientCanSend) = false)
    (hdm : (cmd.dmOnly && ctx.inGuild) = false)
    (hguild : ((cmd.guildOnly || cmd.guildOwnerOnly) && !ctx.inGuild) = false)
    (hnsfw : (cmd.nsfw && !ctx.channelNsfw) = false)
    (hperm : ¬(¬ctx.isDM = true ∧ ctx.permRes ≠ PermRes.ok))
    (hcperm : ¬(¬ctx.isDM = true ∧ cmd.clientPermissions.isSome = true ∧
      ¬ctx.clientMissing.isEmpty = true))
    (hthr : throttleBlockOf cmd.throttling
      (throttleGet cmd.throttling ctx.isOwner throttles ctx.authorId now).1 now = none)
    (hpat : ctx.patternMatches = none) (hcoll : cmd.hasArgsCollector = true)
    (houtcome : ctx.collectorOutcome = CollOutcome.cancelled cause promptsCount) :
    (messageRun cmd ctx throttles now).invokedBody = false ∧
    ((promptsCount = 0 ∨ cause = Cancel.promptLimit) →
       (messageRun cmd ctx throttles now).reply = ReplyLite.formatError ∧
       ∀ c2, Ev.cancelEv c2 ∉ (messageRun cmd ctx throttles now).events) ∧
    (¬(promptsCount = 0 ∨ cause = Cancel.promptLimit) →
       Ev.cancelEv cause ∈ (messageRun cmd ctx throttles now).events ∧
       (messageRun cmd ctx throttles now).reply = ReplyLite.cancelledMsg) := by
  have hrun : messageRun cmd ctx throttles now =
      argsPhase cmd ctx (if cmd.deprecated then [.deprecationNotice] else [])
        (throttleGet cmd.throttling ctx.isOwner throttles ctx.authorId now) := by
    rw [messageRun.eq_def]
    rw [if_neg (by rw [hsend]; exact Bool.false_ne_true),
      if_neg (by rw [hdm]; exact Bool.false_ne_true),
      if_neg (by rw [hguild]; exact Bool.false_ne_true),
      if_neg (by rw [hnsfw]; exact Bool.false_ne_true),
      if_neg (by simpa using hperm), if_neg (by simpa using hcperm), hthr]
  have hargs : argsPhase cmd ctx (if cmd.deprecated then [.deprecationNotice] else [])
      (throttleGet cmd.throttling ctx.isOwner throttles ctx.authorId now) =
      (if promptsCount = 0 ∨ cause = Cancel.promptLimit then
        ⟨(if cmd.deprecated then [.deprecationNotice] else []), .formatError, false,
          (throttleGet cmd.throttling ctx.isOwner throttles ctx.authorId now).2⟩
      else
        ⟨(if cmd.deprecated then [.deprecationNotice] else []) ++ [.cancelEv cause],
          .cancelledMsg, false,
          (throttleGet cmd.throttling ctx.isOwner throttles ctx.authorId now).2⟩) := by
    unfold argsPhase
    rw [hpat, hcoll, houtcome]
    dsimp only
    rw [if_pos rfl]
  rw [hrun, hargs]
  by_cases hcase : promptsCount = 0 ∨ cause = Cancel.promptLimit
  · rw [if_pos hcase]
    refine ⟨rfl, fun _ => ⟨rfl, ?_⟩, fun hn => absurd hcase hn⟩
    intro c2
    dsimp only
    split <;> simp
  · rw [if_neg hcase]
    refine ⟨rfl, fun hy => absurd hy hcase, fun _ => ⟨?_, rfl⟩⟩
    dsimp only
    exact List.mem_append.mpr (Or.inr (List.mem_singleton.mpr rfl))

theorem claim6_witness :
    (messageRun demoCollectorCmd { demoDMCtx with collectorOutcome := .cancelled .time 1 }
        [] 0).invokedBody = false ∧
    Ev.cancelEv Cancel.time ∈
      (messageRun demoCollectorCmd
        { demoDMCtx with collectorOutcome := .cancelled .time 1 } [] 0).events ∧
    (messageRun demoCollectorCmd { demoDMCtx with collectorOutcome := .cancelled .time 1 }
        [] 0).reply = ReplyLite.cancelledMsg := by
  have h := claim6_cancel_handling demoCollectorCmd
    { demoDMCtx with collectorOutcome := .cancelled .time 1 } [] 0 Cancel.time 1
    rfl rfl rfl rfl (by simp [demoDMCtx]) (by simp [demoDMCtx]) rfl rfl rfl rfl
  exact ⟨h.1, (h.2.2 (by simp)).1, (h.2.2 (by simp)).2⟩

/-- Claim C7: a prompt reply whose lower-cased content is the literal
`cancel` makes the single-value loop return — as an ordinary value, the
whole machine is value-returning — a result with null value and
cancellation cause `user`; and a `user`-cancelled collection never leads
`CommandoMessage.run` to invoke the command body. -/
theorem claim7_cancel_reply :
    (∀ (V : Type) (a : ArgSpec V) (value : Option String) (c : String) (rest : List Reply)
       (limit : LimitVal) (prompts : Nat) (answers : List String) (empty : Bool)
       (valid : JsValid),
       valid.isInvalid = true → limit.reachedBy prompts = false →
       jsToLowerCase c = "cancel" →
       singleLoop a value (Reply.msg c :: rest) limit prompts answers empty valid =
         ORes.result ⟨none, some .user, prompts + 1, answers ++ [c]⟩) ∧
    (∀ (cmd : CmdLite) (ctx : CtxLite) (throttles : List (String × Throttle)) (now : Int)
       (promptsCount : Nat),
       ctx.patternMatches = none → cmd.hasArgsCollector = true →
       ctx.collectorOutcome = CollOutcome.cancelled Cancel.user promptsCount →
       (messageRun cmd ctx throttles now).invokedBody = false) := by
  constructor
  · intro V a value c rest limit prompts answers empty valid hvalid hlimit hc
    rw [singleLoop.eq_def]
    dsimp only
    rw [if_pos hvalid, if_neg (by rw [hlimit]; exact Bool.false_ne_true), if_pos hc]
  · intro cmd ctx throttles now promptsCount hpat hcoll houtcome
    rw [messageRun.eq_def]
    repeat' split
    all_goals try rfl
    all_goals
      (unfold argsPhase
       rw [hpat, hcoll, houtcome]
       dsimp only
       rw [if_pos rfl]
       split <;> rfl)

theorem claim7_witness :
    (singleLoop demoRequiredArg none [Reply.msg "CANCEL"] LimitVal.inf 0 [] true
        (JsValid.b false) =
      ORes.result ⟨none, some .user, 1, ["CANCEL"]⟩) ∧
    (messageRun demoCollectorCmd { demoDMCtx with collectorOutcome := .cancelled .user 1 }
        [] 0).invokedBody = false := by
  constructor
  · exact claim7_cancel_reply.1 String demoRequiredArg none "CANCEL" [] LimitVal.inf 0 []
      true (JsValid.b false) rfl rfl rfl
  · exact claim7_cancel_reply.2 demoCollectorCmd _ [] 0 1 rfl rfl rfl

/-- Claim C8: with exact matching disabled and a non-empty search string,
whenever some registered command's name or alias equals the lower-cased
search string, `findCommands` returns exactly that one command even if
several commands matched by substring — in particular `foo` beats
`foobar` when searching `foo` (see the witness). -/
theorem claim8_exact_precedence (commands : List RegCommand) (searchString : String)
    (hs : searchString.isEmpty = false) (c0 : RegCommand) (hc0 : c0 ∈ commands)
    (hex : c0.name = jsToLowerCase searchString ∨ jsToLowerCase searchString ∈ c0.aliases) :
    ∃ c, findCommands commands searchString false = [c] ∧
      (c.name = jsToLowerCase searchString ∨ jsToLowerCase searchString ∈ c.aliases) := by
  unfold findCommands
  rw [hs]
  simp only [Bool.false_eq_true, if_false]
  have hmem : c0 ∈ commands.filter
      (fun c => commandFilterInexact (jsToLowerCase searchString) c) := by
    rw [List.mem_filter]
    refine ⟨hc0, ?_⟩
    unfold commandFilterInexact
    rcases hex with h | h
    · rw [h]
      simp [strIncludes]
    · refine Bool.or_eq_true_iff.mpr (Or.inr ?_)
      rw [List.any_eq_true]
      exact ⟨jsToLowerCase searchString, h, by simp [strIncludes]⟩
  have hpred : (fun c => c.name == jsToLowerCase searchString
      || c.aliases.any (· == jsToLowerCase searchString)) c0 = true := by
    rcases hex with h | h
    · simp [h]
    · refine Bool.or_eq_true_iff.mpr (Or.inr ?_)
      rw [List.any_eq_true]
      exact ⟨jsToLowerCase searchString, h, by simp⟩
  cases hfind : (commands.filter
      (fun c => commandFilterInexact (jsToLowerCase searchString) c)).find?
      (fun c => c.name == jsToLowerCase searchString
        || c.aliases.any (· == jsToLowerCase searchString)) with
  | none =>
    exact absurd hpred (by simpa using List.find?_eq_none.mp hfind c0 hmem)
  | some c =>
    refine ⟨c, rfl, ?_⟩
    have hp := List.find?_some hfind
    rcases Bool.or_eq_true_iff.mp hp with h | h
    · exact Or.inl (by simpa using h)
    · rcases List.any_eq_true.mp h with ⟨al, hal, he⟩
      exact Or.inr (by simpa [show al = jsToLowerCase searchString from by simpa using he]
        using hal)

theorem claim8_witness :
    (∃ c, findCommands demoCommands "foo" false = [c] ∧
      (c.name = jsToLowerCase "foo" ∨ jsToLowerCase "foo" ∈ c.aliases)) ∧
    findCommands demoCommands "foo" false = [demoFoo] := by
  refine ⟨?_, rfl⟩
  exact claim8_exact_precedence demoCommands "foo" rfl demoFoo
    (by simp [demoCommands]) (Or.inl rfl)

/-- Claim C9 counterexample: on the literal input `say "hello world" now`
with argument count 2, `parseArgs` yields `say` and the verbatim
remainder, not `hello world` and `now` as the claim states. -/
theorem claim9_counterexample :
    parseArgs "say \"hello world\" now" (.num 2) true =
      [some "say", some "\"hello world\" now"] ∧
    parseArgs "say \"hello world\" now" (.num 2) true ≠ [some "hello world", some "now"] :=
  ⟨rfl, by decide⟩

/-- Claim C9 (amended): for every argument string and argument count N with
1 ≤ N, `parseArgs` returns at most N entries. With N ≥ 2, when a token
remains after smart-quote normalisation — a quoted run forming one entry
with the quotes stripped (an empty quoted run pushing an undefined entry,
an unclosed quote reading as plain text) or a maximal run of
non-whitespace characters — `parseArgs` returns that entry followed by
its result for the remaining text with count N−1, and returns the empty
list when no token remains; with N = 1 no token is extracted and the
whole non-empty normalised string is returned as the single entry with
one pair of quotes wrapping the whole of it stripped. The claimed
scenario holds for the argument string that follows the command word:
`"hello world" now` with argument count 2 yields `hello world` then
`now`. -/
theorem claim9_tokenizer :
    (∀ (s : String) (n : Int), 1 ≤ n →
       (parseArgs s (.num n) true).length ≤ n.toNat) ∧
    (∀ (s : String) (n : Int) (tok : TokMatch) (rest : List Char), 2 ≤ n →
       execOnce true (removeSmartQuotes true s.data) = some (tok, rest) →
       parseArgs s (.num n) true =
         tokPush tok :: parseArgs (String.mk rest) (.num (n - 1)) true) ∧
    (∀ (s : String) (n : Int), 2 ≤ n →
       execOnce true (removeSmartQuotes true s.data) = none →
       parseArgs s (.num n) true = []) ∧
    (∀ s : String,
       parseArgs s (.num 1) true =
         if (removeSmartQuotes true s.data).isEmpty then []
         else [some (String.mk (stripWrapQuotes true (removeSmartQuotes true s.data)))]) ∧
    parseArgs "\"hello world\" now" (.num 2) true = [some "hello world", some "now"] := by
  have hcount : ∀ (cs : List Char) (m : Int), m ≠ 0 →
      parseArgsCount cs (.num m) = some m := by
    intro cs m hm
    simp [parseArgsCount, hm]
  refine ⟨?_, ?_, ?_, ?_, rfl⟩
  · intro s n hn
    unfold parseArgs
    rw [hcount _ n (by omega)]
    have hloop := parseArgsLoop_length true ((removeSmartQuotes true s.data).length + 1)
      (removeSmartQuotes true s.data) n hn
    unfold parseArgsAssemble
    split
    · omega
    · split
      · omega
      · simp only [List.length_append, List.length_cons, List.length_nil]
        omega
  · intro s n tok rest hn hex
    have hspec := execOnce_spec true (removeSmartQuotes true s.data) tok rest hex
    have hfix : removeSmartQuotes true rest = rest :=
      removeSmartQuotes_fixed rest s.data (fun c hc => hspec.1.subset hc)
    unfold parseArgs
    have hdata : (String.mk rest).data = rest := rfl
    rw [hdata, hfix, hcount (removeSmartQuotes true s.data) n (by omega),
      hcount rest (n - 1) (by omega)]
    conv_lhs => rw [parseArgsLoop.eq_def]
    dsimp only
    rw [if_pos (decide_eq_true (show n - 1 ≠ 0 by omega)), hex]
    dsimp only
    simp only [Option.map_some']
    rw [parseArgsLoop_fuel true (removeSmartQuotes true s.data).length rest
      (rest.length + 1) (some (n - 1)) hspec.2 (Nat.lt_succ_self _)]
    exact parseArgsAssemble_cons true (tokPush tok)
      (parseArgsLoop true (rest.length + 1) rest (some (n - 1)))
  · intro s n hn hex
    unfold parseArgs
    rw [hcount _ n (by omega)]
    conv_lhs => rw [parseArgsLoop.eq_def]
    dsimp only
    rw [if_pos (decide_eq_true (show n - 1 ≠ 0 by omega)), hex]
    rfl
  · intro s
    unfold parseArgs
    rw [hcount _ 1 (by omega)]
    conv_lhs => rw [parseArgsLoop.eq_def]
    dsimp only
    rw [if_neg (by decide)]
    unfold parseArgsAssemble
    dsimp only
    split <;> simp

theorem claim9_witness :
    ((1:Int) ≤ 2 ∧ (parseArgs "a b c" (.num 2) true).length ≤ (2:Int).toNat) ∧
    (execOnce true (removeSmartQuotes true ("\"hello world\" now").data) =
        some (.quoted "hello world", ['n', 'o', 'w']) ∧
      parseArgs "\"hello world\" now" (.num 2) true =
        tokPush (.quoted "hello world") ::
          parseArgs (String.mk ['n', 'o', 'w']) (.num 1) true) ∧
    parseArgs "" (.num 2) true = [] ∧
    parseArgs "\"wrapped rest\"" (.num 1) true = [some "wrapped rest"] := by
  refine ⟨⟨by norm_num, claim9_tokenizer.1 "a b c" 2 (by norm_num)⟩, ⟨by decide, ?_⟩, ?_, ?_⟩
  · exact claim9_tokenizer.2.1 "\"hello world\" now" 2 (.quoted "hello world")
      ['n', 'o', 'w'] (by norm_num) (by decide)
  · exact claim9_tokenizer.2.2.1 "" 2 (by norm_num) rfl
  · rw [claim9_tokenizer.2.2.2.1 "\"wrapped rest\""]
    decide

/-- Claim C10: with throttling `usages = 2, duration = 10` seconds and all
other gates passing, a third invocation by the same user within 10
seconds of the first is blocked with reason `throttling`, a remaining
value in `(0, 10]` seconds, and no body invocation; a third invocation at
or after the end of the window runs the body and starts a fresh window.
(`Command.throttle` itself is modelled from the spec, as its
implementation is not part of the sources.) -/
theorem claim10_throttle_window (cmd : CmdLite) (ctx : CtxLite) (t1 t2 t3 : Int)
    (hthr : cmd.throttling = some ⟨2, 10⟩) (howner : ctx.isOwner = false)
    (hsend : (ctx.inGuild && ctx.clientCanView && !ctx.clientCanSend) = false)
    (hdm : (cmd.dmOnly && ctx.inGuild) = false)
    (hguild : ((cmd.guildOnly || cmd.guildOwnerOnly) && !ctx.inGuild) = false)
    (hnsfw : (cmd.nsfw && !ctx.channelNsfw) = false)
    (hperm : ¬(¬ctx.isDM = true ∧ ctx.permRes ≠ PermRes.ok))
    (hcperm : ¬(¬ctx.isDM = true ∧ cmd.clientPermissions.isSome = true ∧
      ¬ctx.clientMissing.isEmpty = true))
    (hpat : ctx.patternMatches = none) (hcoll : cmd.hasArgsCollector = false)
    (h12 : t1 ≤ t2) (h23 : t2 ≤ t3) :
    (t3 < t1 + 10000 →
       (runThrice cmd ctx t1 t2 t3).invokedBody = false ∧
       (runThrice cmd ctx t1 t2 t3).events =
         [Ev.block "throttling" (some (((t1 + 10000 - t3 : Int) : ℚ) / 1000))] ∧
       0 < (((t1 + 10000 - t3 : Int) : ℚ) / 1000) ∧
       (((t1 + 10000 - t3 : Int) : ℚ) / 1000) ≤ 10) ∧
    (t1 + 10000 ≤ t3 → t2 < t1 + 10000 →
       (runThrice cmd ctx t1 t2 t3).invokedBody = true ∧
       (runThrice cmd ctx t1 t2 t3).throttles = [(ctx.authorId, ⟨t3, 1⟩)]) := by
  have hrun : ∀ (thr : List (String × Throttle)) (now : Int),
      messageRun cmd ctx thr now =
        (match throttleBlockOf cmd.throttling
            (throttleGet cmd.throttling ctx.isOwner thr ctx.authorId now).1 now with
        | some remaining =>
          ⟨[.block "throttling" (some remaining)], .blockReply "throttling", false,
            (throttleGet cmd.throttling ctx.isOwner thr ctx.authorId now).2⟩
        | none =>
          runInvoke (if cmd.deprecated then [.deprecationNotice] else [])
            (throttleGet cmd.throttling ctx.isOwner thr ctx.authorId now)
            ctx.authorId) := by
    intro thr now
    rw [messageRun.eq_def]
    rw [if_neg (by rw [hsend]; exact Bool.false_ne_true),
      if_neg (by rw [hdm]; exact Bool.false_ne_true),
      if_neg (by rw [hguild]; exact Bool.false_ne_true),
      if_neg (by rw [hnsfw]; exact Bool.false_ne_true),
      if_neg (by simpa using hperm), if_neg (by simpa using hcperm)]
    have hargs : argsPhase cmd ctx (if cmd.deprecated then [.deprecationNotice] else [])
        (throttleGet cmd.throttling ctx.isOwner thr ctx.authorId now) =
        runInvoke (if cmd.deprecated then [.deprecationNotice] else [])
          (throttleGet cmd.throttling ctx.isOwner thr ctx.authorId now) ctx.authorId := by
      unfold argsPhase
      rw [hpat, hcoll]
      rfl
    rw [hargs]
  have htg1 : throttleGet cmd.throttling ctx.isOwner [] ctx.authorId t1 =
      (some ⟨t1, 0⟩, [(ctx.authorId, ⟨t1, 0⟩)]) := by
    rw [hthr, howner]
    rfl
  have hr1 : (messageRun cmd ctx [] t1).throttles = [(ctx.authorId, ⟨t1, 1⟩)] := by
    rw [hrun [] t1, htg1, hthr]
    simp [throttleBlockOf, runInvoke, bumpThrottle]
  have hr2 : t2 < t1 + 10000 →
      (messageRun cmd ctx (messageRun cmd ctx [] t1).throttles t2).throttles =
        [(ctx.authorId, ⟨t1, 2⟩)] := by
    intro ht2w
    have hdec2 : decide (t2 < t1 + ((10 : Nat) : Int) * 1000) = true := by
      rw [decide_eq_true_eq]
      push_cast
      linarith
    have htg2 : throttleGet cmd.throttling ctx.isOwner [(ctx.authorId, ⟨t1, 1⟩)]
        ctx.authorId t2 = (some ⟨t1, 1⟩, [(ctx.authorId, ⟨t1, 1⟩)]) := by
      rw [hthr, howner]
      unfold throttleGet
      simp only [List.filter, hdec2, List.lookup, beq_self_eq_true, if_false]
      rfl
    rw [hr1, hrun _ t2, htg2, hthr]
    simp [throttleBlockOf, runInvoke, bumpThrottle]
  constructor
  · intro hA
    have ht2w : t2 < t1 + 10000 := lt_of_le_of_lt h23 hA
    have hdec3 : decide (t3 < t1 + ((10 : Nat) : Int) * 1000) = true := by
      rw [decide_eq_true_eq]
      push_cast
      linarith
    have htg3 : throttleGet cmd.throttling ctx.isOwner [(ctx.authorId, ⟨t1, 2⟩)]
        ctx.authorId t3 = (some ⟨t1, 2⟩, [(ctx.authorId, ⟨t1, 2⟩)]) := by
      rw [hthr, howner]
      unfold throttleGet
      simp only [List.filter, hdec3, List.lookup, beq_self_eq_true, if_false]
      rfl
    have hrem : ((t1 + ((10 : Nat) : Int) * 1000 - t3 : Int) : ℚ) / 1000 =
        ((t1 + 10000 - t3 : Int) : ℚ) / 1000 := by
      norm_num
    have hr3 : runThrice cmd ctx t1 t2 t3 =
        ⟨[Ev.block "throttling" (some (((t1 + 10000 - t3 : Int) : ℚ) / 1000))],
          .blockReply "throttling", false, [(ctx.authorId, ⟨t1, 2⟩)]⟩ := by
      unfold runThrice
      rw [hr2 ht2w, hrun _ t3, htg3, hthr]
      simp only [throttleBlockOf]
      rw [if_pos (by norm_num)]
      rw [hrem]
    refine ⟨by rw [hr3], by rw [hr3], ?_, ?_⟩
    · apply div_pos
      · have hx : (0 : Int) < t1 + 10000 - t3 := by linarith
        exact_mod_cast hx
      · norm_num
    · rw [div_le_iff (by norm_num : (0:ℚ) < 1000)]
      have hx : (t1 + 10000 - t3 : Int) ≤ 10000 := by linarith
      calc ((t1 + 10000 - t3 : Int) : ℚ) ≤ ((10000 : Int) : ℚ) := by exact_mod_cast hx
        _ = 10 * 1000 := by norm_num
  · intro hB ht2w
    have hdec3 : decide (t3 < t1 + ((10 : Nat) : Int) * 1000) = false := by
      rw [decide_eq_false_iff_not]
      push_cast
      linarith
    have htg3 : throttleGet cmd.throttling ctx.isOwner [(ctx.authorId, ⟨t1, 2⟩)]
        ctx.authorId t3 = (some ⟨t3, 0⟩, [(ctx.authorId, ⟨t3, 0⟩)]) := by
      rw [hthr, howner]
      unfold throttleGet
      simp only [List.filter, hdec3, List.lookup]
      rfl
    have hr3 : runThrice cmd ctx t1 t2 t3 =
        runInvoke (if cmd.deprecated then [.deprecationNotice] else [])
          (some ⟨t3, 0⟩, [(ctx.authorId, ⟨t3, 0⟩)]) ctx.authorId := by
      unfold runThrice
      rw [hr2 ht2w, hrun _ t3, htg3, hthr]
      simp [throttleBlockOf]
    rw [hr3]
    simp [runInvoke, bumpThrottle]

theorem claim10_witness :
    (runThrice demoThrottleCmd demoDMCtx 0 1000 5000).invokedBody = false ∧
    (runThrice demoThrottleCmd demoDMCtx 0 1000 5000).events =
      [Ev.block "throttling" (some ((((0 : Int) + 10000 - 5000 : Int) : ℚ) / 1000))] ∧
    0 < ((((0 : Int) + 10000 - 5000 : Int) : ℚ) / 1000) ∧
    ((((0 : Int) + 10000 - 5000 : Int) : ℚ) / 1000) ≤ 10 := by
  exact (claim10_throttle_window demoThrottleCmd demoDMCtx 0 1000 5000 rfl rfl rfl rfl
    rfl rfl (by simp [demoDMCtx]) (by simp [demoDMCtx]) rfl rfl (by norm_num)
    (by norm_num)).1 (by norm_num)

end Commando
